import Mathlib

/-!
Verification development for the gh-ghes-actions-forecast repository.

The TypeScript sources are shallowly embedded:
* JS numbers holding whole minutes / counts / ids are `Int` or `Nat`;
  monetary amounts are `ℚ` (exact arithmetic for the fixed decimal rates).
* ISO timestamp strings stay `String`; the host `Date` parser
  (`new Date(s).getTime()`) is an explicit parameter `parse : String → Int`
  giving epoch milliseconds, since it is a host-library call.
* `null`/`undefined` string fields are `Option String`.
* JS records (`Record<string, T>`) built incrementally are association
  lists `List (String × T)` in key-insertion order; `Set<T>` is `Finset`.
* The JS truthiness test `if (!job.completed_at)` is modelled exactly:
  it rejects both `null` and the empty string.
-/

/-! ## Data model (src/api.ts interfaces) -/

inductive OSType where
  | linux
  | windows
  | macos
  | unknown
deriving DecidableEq

structure LabelMapping where
  pattern : String
  os : OSType
deriving DecidableEq

structure WorkflowJob where
  id : Int
  run_id : Int
  name : String
  status : String
  conclusion : Option String
  started_at : String
  completed_at : Option String
  labels : List String
  runner_name : Option String
  runner_group_name : Option String
deriving DecidableEq

structure JobWithRepo extends WorkflowJob where
  repo_full_name : String
  workflow_name : Option String
deriving DecidableEq

structure RunRepoRef where
  name : String
  full_name : String
deriving DecidableEq

structure WorkflowRun where
  id : Int
  name : Option String
  status : Option String
  conclusion : Option String
  created_at : String
  run_started_at : Option String
  repository : RunRepoRef
deriving DecidableEq

structure BillingResult where
  job : JobWithRepo
  os : OSType
  durationMinutes : Int
  multiplier : Int
  billableMinutes : Int
deriving DecidableEq

structure OSGroup where
  minutes : Int
  billableMinutes : Int
  jobCount : Nat
deriving DecidableEq

structure WorkflowGroup where
  minutes : Int
  billableMinutes : Int
  jobCount : Nat
  runCount : Nat
deriving DecidableEq

structure RepoGroup where
  minutes : Int
  billableMinutes : Int
  jobCount : Nat
  workflows : Finset String
deriving DecidableEq

structure DateGroup where
  minutes : Int
  billableMinutes : Int
  jobCount : Nat
deriving DecidableEq

/-- `AggregatedBilling` from src/billing.ts.  `byOS` has the four fixed
keys, so it is a total function on `OSType`; the string-keyed records are
association lists in insertion order. -/
structure AggregatedBilling where
  totalMinutes : Int
  totalBillableMinutes : Int
  byOS : OSType → OSGroup
  byWorkflow : List (String × WorkflowGroup)
  byRepo : List (String × RepoGroup)
  byDate : List (String × DateGroup)
  jobCount : Nat
  runCount : Nat
  jobs : List BillingResult

/-! ## Constants (src/billing.ts) -/

def MULTIPLIERS : OSType → Int
  | OSType.linux => 1
  | OSType.windows => 2
  | OSType.macos => 10
  | OSType.unknown => 1

def DEFAULT_PATTERNS : List LabelMapping :=
  [ { pattern := "ubuntu", os := OSType.linux }
  , { pattern := "linux", os := OSType.linux }
  , { pattern := "windows", os := OSType.windows }
  , { pattern := "win", os := OSType.windows }
  , { pattern := "macos", os := OSType.macos }
  , { pattern := "mac", os := OSType.macos }
  , { pattern := "darwin", os := OSType.macos } ]

def COST_PER_MINUTE : OSType → ℚ
  | OSType.linux => 0.008
  | OSType.windows => 0.016
  | OSType.macos => 0.08
  | OSType.unknown => 0.008

/-! ## Glob matching (matchesPattern)

The source compiles the pattern to an anchored case-insensitive regex:
it escapes the metacharacters in the set dot plus caret dollar braces
parens pipe brackets backslash, then turns each asterisk into a wildcard
for any character sequence.  A question mark is NOT in the escape set,
so it survives as the regex optional quantifier: it makes the preceding
element optional (for example, pattern runner-? matches the label
runner).  A question mark directly after an asterisk or after another
question mark is a regex laziness marker, which does not change the
accepted language; a question mark with nothing quantifiable before it
makes the source throw a regex syntax error, which aborts detectOS
entirely — those patterns are outside this model (the stray marker is
ignored here).

The matchers are primed with explicit fuel so that they are structural
recursions the kernel can evaluate; every step strictly decreases the
combined pattern weight and label length, so the fuel never runs out. -/

/-- Pure anchored glob matching (only the asterisk is special), as the
spec describes the pattern language.  Used by the spec-side reference
definition; the code-side matcher below additionally reproduces the
question-mark quantifier behaviour. -/
def globMatchFuel : Nat → List Char → List Char → Bool
  | 0, _, _ => false
  | _ + 1, [], [] => true
  | _ + 1, [], _ :: _ => false
  | fuel + 1, c :: ps, [] => if c = '*' then globMatchFuel fuel ps [] else false
  | fuel + 1, c :: ps, x :: xs =>
    if c = '*' then globMatchFuel fuel ps (x :: xs) || globMatchFuel fuel (c :: ps) xs
    else (c == x) && globMatchFuel fuel ps xs

def globMatch (p l : List Char) : Bool :=
  globMatchFuel (p.length + l.length + 1) p l

/-- `toLowerCase()` on the character-list model of a string (ASCII case
folding, as in the source's lowercasing and its regex `i` flag). -/
def lowerStr (s : String) : String :=
  String.mk (s.data.map Char.toLower)

/-- One element of the compiled regex: the wildcard from an asterisk, a
literal character, or an element made optional by a following unescaped
question mark. -/
inductive GlobElem where
  | star : GlobElem
  | lit : Char → GlobElem
  | opt : GlobElem → GlobElem
deriving DecidableEq

/-- Effect of a question mark on the preceding element: a literal
becomes optional; a wildcard or an already-optional element only gains a
laziness marker, which leaves the accepted language unchanged. -/
def markOpt : GlobElem → GlobElem
  | GlobElem.lit c => GlobElem.opt (GlobElem.lit c)
  | e => e

/-- Compile the pattern characters into regex elements, mirroring the
source's escape-and-translate step (the accumulator is kept reversed). -/
def parseGlobAux : List GlobElem → List Char → List GlobElem
  | acc, [] => acc.reverse
  | acc, c :: rest =>
    if c = '*' then parseGlobAux (GlobElem.star :: acc) rest
    else if c = '?' then
      match acc with
      | [] => parseGlobAux acc rest
      | e :: tl => parseGlobAux (markOpt e :: tl) rest
    else parseGlobAux (GlobElem.lit c :: acc) rest

def elemWeight : GlobElem → Nat
  | GlobElem.star => 1
  | GlobElem.lit _ => 1
  | GlobElem.opt e => elemWeight e + 1

def elemsWeight (es : List GlobElem) : Nat :=
  (es.map elemWeight).sum

/-- Anchored matching of compiled regex elements against the label. -/
def elemsMatchFuel : Nat → List GlobElem → List Char → Bool
  | 0, _, _ => false
  | _ + 1, [], [] => true
  | _ + 1, [], _ :: _ => false
  | fuel + 1, GlobElem.star :: es, [] => elemsMatchFuel fuel es []
  | fuel + 1, GlobElem.star :: es, x :: xs =>
    elemsMatchFuel fuel es (x :: xs) || elemsMatchFuel fuel (GlobElem.star :: es) xs
  | _ + 1, GlobElem.lit _ :: _, [] => false
  | fuel + 1, GlobElem.lit c :: es, x :: xs => (c == x) && elemsMatchFuel fuel es xs
  | fuel + 1, GlobElem.opt e :: es, l =>
    elemsMatchFuel fuel es l || elemsMatchFuel fuel (e :: es) l

/-- `matchesPattern(label, pattern)` from src/billing.ts: anchored,
case-insensitive match of the compiled pattern (asterisk wildcard, and
the unescaped question mark acting as the regex optional quantifier)
against the whole label. -/
def matchesPattern (label pattern : String) : Bool :=
  let elems := parseGlobAux [] (lowerStr pattern).data
  let chars := (lowerStr label).data
  elemsMatchFuel (elemsWeight elems + chars.length + 1) elems chars

/-- The matching the spec's words describe: case-insensitive anchored
glob where only the asterisk is special. -/
def matchesPatternRef (label pattern : String) : Bool :=
  globMatch (lowerStr pattern).data (lowerStr label).data

/-- Element a single pattern character compiles to when no question mark
is involved. -/
def toElem (c : Char) : GlobElem :=
  if c = '*' then GlobElem.star else GlobElem.lit c

/-- The pattern contains no question mark (on such patterns the compiled
regex is exactly the anchored glob of the spec). -/
def noQuestion (s : String) : Bool :=
  s.data.all (fun c => c != '?')

/-! ## Substring containment (JS String.prototype.includes) -/

def prefixChars : List Char → List Char → Bool
  | [], _ => true
  | _ :: _, [] => false
  | c :: cs, x :: xs => (c == x) && prefixChars cs xs

def subChars (needle : List Char) : List Char → Bool
  | [] => prefixChars needle []
  | x :: xs => prefixChars needle (x :: xs) || subChars needle xs

def containsSub (needle hay : String) : Bool :=
  subChars needle.data hay.data

/-! ## detectOS (src/billing.ts) -/

/-- Outer loop over custom mappings: for the first mapping for which some
(lower-cased) label matches its pattern, return that mapping's OS. -/
def firstMappingMatch (lowerLabels : List String) : List LabelMapping → Option OSType
  | [] => none
  | m :: rest =>
    if lowerLabels.any (fun label => matchesPattern label m.pattern) then some m.os
    else firstMappingMatch lowerLabels rest

/-- Loop over the built-in default patterns, tested by substring
containment against the lower-cased labels. -/
def firstDefaultMatch (lowerLabels : List String) : List LabelMapping → Option OSType
  | [] => none
  | m :: rest =>
    if lowerLabels.any (fun label => containsSub m.pattern label) then some m.os
    else firstDefaultMatch lowerLabels rest

def detectOS (labels : List String) (customMappings : List LabelMapping) : OSType :=
  let lowerLabels := labels.map (fun l => lowerStr l)
  match firstMappingMatch lowerLabels customMappings with
  | some os => os
  | none =>
    match firstDefaultMatch lowerLabels DEFAULT_PATTERNS with
    | some os => os
    | none => OSType.unknown

/-- Definition following the spec's words (§4.4): first test every
override mapping against every label with case-insensitive anchored glob
matching, first matching override wins; otherwise fall through to the
fixed built-in table tested via case-insensitive substring containment in
the declared order; otherwise classify as unknown. -/
def detectOSRef (labels : List String) (customMappings : List LabelMapping) : OSType :=
  let caseFolded := labels.map (fun l => lowerStr l)
  match customMappings.findSome? (fun m =>
      if caseFolded.any (fun label => matchesPatternRef label m.pattern) then some m.os
      else none) with
  | some os => os
  | none =>
    match DEFAULT_PATTERNS.findSome? (fun m =>
        if caseFolded.any (fun label => containsSub m.pattern label) then some m.os
        else none) with
    | some os => os
    | none => OSType.unknown

def getMultiplier (os : OSType) : Int :=
  MULTIPLIERS os

/-! ## Durations (src/billing.ts) -/

/-- `calculateDurationMinutes`: `Math.ceil((end - start) / 1000 / 60)`
with `end`/`start` the parsed epoch-millisecond values.  The divisions
are exact, so the result is the ceiling of `durationMs / 60000`, written
here as the integer ceiling division `-((-durationMs) / 60000)`; the
equivalence with the rational ceiling of `durationMs / 1000 / 60` is
proved in the C2 theorem. -/
def calculateDurationMinutes (parse : String → Int) (startedAt completedAt : String) : Int :=
  let start := parse startedAt
  let stop := parse completedAt
  let durationMs := stop - start;
  -(-durationMs / 60000)

def calculateBillableMinutes (parse : String → Int) (startedAt completedAt : String)
    (multiplier : Int) : Int :=
  let durationMinutes := calculateDurationMinutes parse startedAt completedAt
  durationMinutes * multiplier

/-- `processJob`.  The source reads `job.completed_at!` (non-null
assertion); the aggregation only calls it on jobs whose `completed_at`
passed the truthiness guard, so the `getD` default is never used there. -/
def processJob (parse : String → Int) (job : JobWithRepo)
    (customMappings : List LabelMapping) : BillingResult :=
  let os := detectOS job.labels customMappings
  let multiplier := getMultiplier os
  let durationMinutes :=
    calculateDurationMinutes parse job.started_at (job.completed_at.getD "")
  let billableMinutes := durationMinutes * multiplier
  { job := job, os := os, durationMinutes := durationMinutes,
    multiplier := multiplier, billableMinutes := billableMinutes }

/-! ## Aggregation (aggregateBilling, src/billing.ts) -/

/-- JS truthiness of a nullable string: `null`, `undefined` and the empty
string are falsy (`if (!job.completed_at) continue`). -/
def truthyOpt : Option String → Bool
  | none => false
  | some s => s != ""

/-- `job.workflow_name || 'unknown'`: the JS fallback also replaces the
(falsy) empty string. -/
def orUnknown : Option String → String
  | none => "unknown"
  | some s => if s = "" then "unknown" else s

/-- Key of the byWorkflow rollup: template literal
`repo_full_name + "/" + (workflow_name || 'unknown')`. -/
def wfKeyOf (job : JobWithRepo) : String :=
  job.repo_full_name ++ "/" ++ orUnknown job.workflow_name

/-- Key of the byDate rollup: `job.started_at.split('T')[0]`. -/
def dateKeyOf (job : JobWithRepo) : String :=
  (job.started_at.splitOn "T").headD ""

/-- Record access `record[key]` on an insertion-ordered association
list. -/
def lookupKey {β : Type} (k : String) : List (String × β) → Option β
  | [] => none
  | (k0, v) :: rest => if k0 = k then some v else lookupKey k rest

/-- `if (!record[key]) record[key] = init; mutate(record[key])`:
update the entry in place if present, otherwise append a freshly
initialised and mutated entry. -/
def upsert {β : Type} (key : String) (d : β) (f : β → β) : List (String × β) → List (String × β)
  | [] => [(key, f d)]
  | (k0, v) :: rest =>
    if k0 = key then (k0, f v) :: rest else (k0, v) :: upsert key d f rest

def wfZero : WorkflowGroup := { minutes := 0, billableMinutes := 0, jobCount := 0, runCount := 0 }
def repoZero : RepoGroup := { minutes := 0, billableMinutes := 0, jobCount := 0, workflows := ∅ }
def dateZero : DateGroup := { minutes := 0, billableMinutes := 0, jobCount := 0 }

def osBump (billing : BillingResult) (g : OSGroup) : OSGroup :=
  { minutes := g.minutes + billing.durationMinutes
    billableMinutes := g.billableMinutes + billing.billableMinutes
    jobCount := g.jobCount + 1 }

def wfBump (billing : BillingResult) (g : WorkflowGroup) : WorkflowGroup :=
  { minutes := g.minutes + billing.durationMinutes
    billableMinutes := g.billableMinutes + billing.billableMinutes
    jobCount := g.jobCount + 1
    runCount := g.runCount }

def repoBump (billing : BillingResult) (job : JobWithRepo) (g : RepoGroup) : RepoGroup :=
  { minutes := g.minutes + billing.durationMinutes
    billableMinutes := g.billableMinutes + billing.billableMinutes
    jobCount := g.jobCount + 1
    workflows := insert (orUnknown job.workflow_name) g.workflows }

def dateBump (billing : BillingResult) (g : DateGroup) : DateGroup :=
  { minutes := g.minutes + billing.durationMinutes
    billableMinutes := g.billableMinutes + billing.billableMinutes
    jobCount := g.jobCount + 1 }

/-- Loop state of `aggregateBilling`: the result record under
construction together with the local `seenRunIds` set. -/
structure AggAcc where
  totalMinutes : Int
  totalBillableMinutes : Int
  byOS : OSType → OSGroup
  byWorkflow : List (String × WorkflowGroup)
  byRepo : List (String × RepoGroup)
  byDate : List (String × DateGroup)
  jobCount : Nat
  jobs : List BillingResult
  seenRunIds : Finset Int

def initAcc : AggAcc :=
  { totalMinutes := 0
    totalBillableMinutes := 0
    byOS := fun _ => { minutes := 0, billableMinutes := 0, jobCount := 0 }
    byWorkflow := []
    byRepo := []
    byDate := []
    jobCount := 0
    jobs := []
    seenRunIds := ∅ }

/-- Body of the main per-job loop of `aggregateBilling`, for a job whose
`completed_at` passed the truthiness guard. -/
def aggBody (parse : String → Int) (customMappings : List LabelMapping)
    (acc : AggAcc) (job : JobWithRepo) : AggAcc :=
  let billing := processJob parse job customMappings
  { totalMinutes := acc.totalMinutes + billing.durationMinutes
    totalBillableMinutes := acc.totalBillableMinutes + billing.billableMinutes
    byOS := fun os => if os = billing.os then osBump billing (acc.byOS os) else acc.byOS os
    byWorkflow := upsert (wfKeyOf job) wfZero (wfBump billing) acc.byWorkflow
    byRepo := upsert job.repo_full_name repoZero (repoBump billing job) acc.byRepo
    byDate := upsert (dateKeyOf job) dateZero (dateBump billing) acc.byDate
    jobCount := acc.jobCount + 1
    jobs := acc.jobs ++ [billing]
    seenRunIds := insert job.run_id acc.seenRunIds }

def aggStep (parse : String → Int) (customMappings : List LabelMapping)
    (acc : AggAcc) (job : JobWithRepo) : AggAcc :=
  if truthyOpt job.completed_at then aggBody parse customMappings acc job else acc

/-- Second pass: `runsByWorkflow`, a map from workflow key to the set of
distinct run ids observed for that key. -/
def runsStep (acc : List (String × Finset Int)) (job : JobWithRepo) :
    List (String × Finset Int) :=
  if truthyOpt job.completed_at then
    upsert (wfKeyOf job) ∅ (fun s => insert job.run_id s) acc
  else acc

/-- `if (result.byWorkflow[key]) result.byWorkflow[key].runCount = n`. -/
def setRunCount (key : String) (n : Nat) :
    List (String × WorkflowGroup) → List (String × WorkflowGroup)
  | [] => []
  | (k0, v) :: rest =>
    if k0 = key then (k0, { v with runCount := n }) :: rest
    else (k0, v) :: setRunCount key n rest

/-- `for (const [key, runs] of runsByWorkflow) ... runCount = runs.size`. -/
def applyRunCounts (wf : List (String × WorkflowGroup)) :
    List (String × Finset Int) → List (String × WorkflowGroup)
  | [] => wf
  | (k0, runs) :: rest => applyRunCounts (setRunCount k0 runs.card wf) rest

/-- `aggregateBilling` from src/billing.ts. -/
def aggregateBilling (parse : String → Int) (jobs : List JobWithRepo)
    (customMappings : List LabelMapping) : AggregatedBilling :=
  let acc := jobs.foldl (aggStep parse customMappings) initAcc
  let runsByWorkflow := jobs.foldl runsStep []
  { totalMinutes := acc.totalMinutes
    totalBillableMinutes := acc.totalBillableMinutes
    byOS := acc.byOS
    byWorkflow := applyRunCounts acc.byWorkflow runsByWorkflow
    byRepo := acc.byRepo
    byDate := acc.byDate
    jobCount := acc.jobCount
    runCount := acc.seenRunIds.card
    jobs := acc.jobs }

/-! ## Cost estimation (estimateCost, src/billing.ts) -/

/-- `Object.entries(billing.byOS)` enumerates the four keys in the
insertion order of the literal that built the record. -/
def OS_ORDER : List OSType :=
  [OSType.linux, OSType.windows, OSType.macos, OSType.unknown]

def estimateCost (billing : AggregatedBilling) : ℚ :=
  OS_ORDER.foldl
    (fun totalCost os => totalCost + ((billing.byOS os).minutes : ℚ) * COST_PER_MINUTE os)
    0

def projectCosts (billing : AggregatedBilling) (daysOfData : ℚ) :
    ℚ × ℚ × ℚ :=
  let dailyCost := estimateCost billing / daysOfData
  (dailyCost, dailyCost * 7, dailyCost * 30)

/-! ## Cache store (src/cache.ts)

The on-disk store is the state `CacheStore α`: a map from cache key to
the stored entry.  JSON serialisation of JSON-serialisable data is the
identity on the model; the md5 content hash of the joined key parts is
modelled by the join itself (an injective content key — collisions are
out of scope per the spec).  `Date.now()` is the explicit `now`
parameter. -/

def CACHE_VERSION : String := "1"

structure CacheEntry (α : Type) where
  version : String
  timestamp : Int
  ttlMs : Int
  data : α

def CacheStore (α : Type) : Type := String → Option (CacheEntry α)

def getCacheKey (parts : List String) : String :=
  String.intercalate "|" parts

/-- `setCache`: write the entry under the key. -/
def setCache {α : Type} (now : Int) (keyParts : List String) (data : α) (ttlMs : Int)
    (store : CacheStore α) : CacheStore α :=
  fun p =>
    if p = getCacheKey keyParts then
      some { version := CACHE_VERSION, timestamp := now, ttlMs := ttlMs, data := data }
    else store p

/-- `getCache`: returns the data found (if fresh) together with the
store after any invalidating deletion. -/
def getCache {α : Type} (now : Int) (keyParts : List String) (ttlMs : Int)
    (store : CacheStore α) : Option α × CacheStore α :=
  let key := getCacheKey keyParts
  match store key with
  | none => (none, store)
  | some entry =>
    if entry.version ≠ CACHE_VERSION then
      (none, fun p => if p = key then none else store p)
    else if now - entry.timestamp > ttlMs then
      (none, fun p => if p = key then none else store p)
    else (some entry.data, store)

/-! ## API listing (src/api.ts)

A paginated listing is a list of page results, each either a page of
items or a raised API error (`Except.error`).  The `try`/`catch` around
the whole pagination loop is modelled by the loop returning the empty
list as soon as an error page is reached, discarding what was
accumulated. -/

structure ApiError where
  status : Nat
deriving DecidableEq

/-- Pagination loop of `listWorkflowRuns`, keeping runs that pass the
client-side date re-filter; any raised error yields the empty list. -/
def runsLoop (keep : WorkflowRun → Bool) :
    List (Except ApiError (List WorkflowRun)) → List WorkflowRun → List WorkflowRun
  | [], runs => runs
  | Except.error _ :: _, _ => []
  | Except.ok page :: rest, runs => runsLoop keep rest (runs ++ page.filter keep)

/-- `listWorkflowRuns`: accumulate all pages, re-filtering each run's
`created_at` against the requested instant range; swallow any API
error. -/
def listWorkflowRuns (parse : String → Int) (since untilT : Int)
    (pages : List (Except ApiError (List WorkflowRun))) : List WorkflowRun :=
  runsLoop
    (fun run => decide (since ≤ parse run.created_at) && decide (parse run.created_at ≤ untilT))
    pages []

/-- Pagination loop of `listRunJobs`: keep only jobs with a truthy
`completed_at`; any raised error yields the empty list. -/
def jobsLoop :
    List (Except ApiError (List WorkflowJob)) → List WorkflowJob → List WorkflowJob
  | [], jobs => jobs
  | Except.error _ :: _, _ => []
  | Except.ok page :: rest, jobs =>
    jobsLoop rest (jobs ++ page.filter (fun j => truthyOpt j.completed_at))

def listRunJobs (pages : List (Except ApiError (List WorkflowJob))) : List WorkflowJob :=
  jobsLoop pages []

/-- `fetchAllJobs` (cache disabled path): for each run, list its jobs
and denormalise them with the run's repository full name and the run's
`name`.  `p-limit` + `Promise.all` deliver per-run results in the order
of `runs`, so the flattening is order-preserving regardless of worker
completion order. -/
def fetchAllJobs (jobsFor : WorkflowRun → List (Except ApiError (List WorkflowJob)))
    (runs : List WorkflowRun) : List JobWithRepo :=
  (runs.map (fun run =>
    (listRunJobs (jobsFor run)).map (fun job =>
      { toWorkflowJob := job
        repo_full_name := run.repository.full_name
        workflow_name := run.name }))).flatten

/-! ## Derived abbreviations used by the statements -/

/-- The jobs that pass the `if (!job.completed_at) continue` guard. -/
def completedOnly (jobs : List JobWithRepo) : List JobWithRepo :=
  jobs.filter (fun j => truthyOpt j.completed_at)

/-! ## Concrete fixtures for witnesses and counterexamples -/

/-- A concrete stand-in for the host timestamp parser. -/
def parseFix : String → Int :=
  fun s => if s = "E" then 1000 else if s = "N" then -120000 else 0

def jobA : JobWithRepo :=
  { id := 1, run_id := 101, name := "build", status := "completed",
    conclusion := some "success", started_at := "2024-01-01T08:00:00Z",
    completed_at := some "2024-01-01T08:00:30Z", labels := ["ubuntu-latest"],
    runner_name := none, runner_group_name := none,
    repo_full_name := "acme/app", workflow_name := some "CI" }

def jobB : JobWithRepo :=
  { id := 2, run_id := 102, name := "test", status := "completed",
    conclusion := some "success", started_at := "2024-01-02T09:00:00Z",
    completed_at := some "2024-01-02T09:00:30Z", labels := ["windows-large"],
    runner_name := none, runner_group_name := none,
    repo_full_name := "acme/app", workflow_name := some "CI" }

/-- Zero-duration job: `completed_at` parses to the same instant as
`started_at`. -/
def jobZero : JobWithRepo :=
  { id := 3, run_id := 201, name := "noop", status := "completed",
    conclusion := some "success", started_at := "S", completed_at := some "S",
    labels := ["ubuntu-latest"], runner_name := none, runner_group_name := none,
    repo_full_name := "acme/app", workflow_name := some "CI" }

/-- Clock-skewed job: `completed_at` parses 120000 ms before
`started_at`. -/
def jobNeg : JobWithRepo :=
  { id := 4, run_id := 202, name := "skewed", status := "completed",
    conclusion := some "success", started_at := "S", completed_at := some "N",
    labels := ["ubuntu-latest"], runner_name := none, runner_group_name := none,
    repo_full_name := "acme/app", workflow_name := some "CI" }

/-- A job whose `completed_at` is non-null but empty — truthiness makes
the aggregation skip it. -/
def jobEmptyC : JobWithRepo :=
  { id := 5, run_id := 203, name := "odd", status := "completed",
    conclusion := some "success", started_at := "S", completed_at := some "",
    labels := ["ubuntu-latest"], runner_name := none, runner_group_name := none,
    repo_full_name := "acme/app", workflow_name := some "CI" }

/-- A concrete aggregate whose byOS raw minutes match the spec's cost
example. -/
def aggFix : AggregatedBilling :=
  { totalMinutes := 160
    totalBillableMinutes := 300
    byOS := fun os =>
      match os with
      | OSType.linux => { minutes := 100, billableMinutes := 100, jobCount := 3 }
      | OSType.windows => { minutes := 50, billableMinutes := 100, jobCount := 2 }
      | OSType.macos => { minutes := 10, billableMinutes := 100, jobCount := 1 }
      | OSType.unknown => { minutes := 0, billableMinutes := 0, jobCount := 0 }
    byWorkflow := []
    byRepo := []
    byDate := []
    jobCount := 6
    runCount := 3
    jobs := [] }

def runFix : WorkflowRun :=
  { id := 301, name := none, status := some "completed",
    conclusion := some "success", created_at := "2024-01-03T00:00:00Z",
    run_started_at := none, repository := { name := "app", full_name := "acme/app" } }

def wfJobFix : WorkflowJob :=
  { id := 6, run_id := 301, name := "build", status := "completed",
    conclusion := some "success", started_at := "2024-01-03T00:00:00Z",
    completed_at := some "2024-01-03T00:04:00Z", labels := ["ubuntu-latest"],
    runner_name := none, runner_group_name := none }

/-- Oracle: every run has a single successful page holding one completed
job. -/
def oracleFix : WorkflowRun → List (Except ApiError (List WorkflowJob)) :=
  fun _ => [Except.ok [wfJobFix]]

/-- The denormalised form of `wfJobFix` produced for `runFix`. -/
def jobDenormFix : JobWithRepo :=
  { toWorkflowJob := wfJobFix
    repo_full_name := "acme/app"
    workflow_name := none }

/-- Oracle: listing jobs for any run raises a 403. -/
def oracleErr : WorkflowRun → List (Except ApiError (List WorkflowJob)) :=
  fun _ => [Except.error { status := 403 }]

def errRunPages : List (Except ApiError (List WorkflowRun)) :=
  [Except.ok [runFix], Except.error { status := 404 }]

def errJobPages : List (Except ApiError (List WorkflowJob)) :=
  [Except.error { status := 409 }]

/-- A cache store holding one entry written by an older schema
version. -/
def staleEntryFix : CacheEntry Nat :=
  { version := "0", timestamp := 0, ttlMs := 100, data := 5 }

def storeFix : CacheStore Nat :=
  fun p => if p = "k" then some staleEntryFix else none

/-! ## Generic lemmas about the association-list record operations -/

theorem lookupKey_upsert {β : Type} (key k : String) (d : β) (f : β → β)
    (A : List (String × β)) :
    lookupKey k (upsert key d f A)
      = if key = k then some (f ((lookupKey k A).getD d)) else lookupKey k A := by
  induction A with
  | nil =>
    by_cases h : key = k <;> simp [upsert, lookupKey, h]
  | cons hd tl ih =>
    obtain ⟨k0, v⟩ := hd
    by_cases h0 : k0 = key
    · subst h0
      by_cases hk : k0 = k <;> simp [upsert, lookupKey, hk]
    · by_cases hk : k0 = k
      · have hne : ¬ key = k := fun h => h0 (hk.trans h.symm)
        have hne2 : ¬ k = key := fun h => h0 (hk.trans h)
        simp [upsert, lookupKey, h0, hk, hne, hne2]
      · simp [upsert, lookupKey, h0, hk, ih]

theorem foldl_guard {σ : Type} (step : σ → JobWithRepo → σ) (jobs : List JobWithRepo) :
    ∀ a : σ,
      List.foldl (fun acc j => if truthyOpt j.completed_at then step acc j else acc) a jobs
        = List.foldl step a (completedOnly jobs) := by
  induction jobs with
  | nil => intro a; rfl
  | cons j js ih =>
    intro a
    by_cases h : truthyOpt j.completed_at = true
    · simp [completedOnly, List.filter_cons, h, List.foldl_cons, ih a,
        ih (step a j)]
    · simp [completedOnly, List.filter_cons, h, ih a]

theorem foldl_opt_some {β : Type} (bump : JobWithRepo → β → β) (d : β)
    (l : List JobWithRepo) :
    ∀ v : β,
      List.foldl (fun ov j => some (bump j (ov.getD d))) (some v) l
        = some (List.foldl (fun w j => bump j w) v l) := by
  induction l with
  | nil => intro v; rfl
  | cons j js ih => intro v; simp [List.foldl_cons, ih]

theorem foldl_opt_none {β : Type} (bump : JobWithRepo → β → β) (d : β)
    (l : List JobWithRepo) :
    List.foldl (fun ov j => some (bump j (ov.getD d))) none l
      = if l = [] then none else some (List.foldl (fun w j => bump j w) d l) := by
  cases l with
  | nil => rfl
  | cons j js => simp [List.foldl_cons, foldl_opt_some]

theorem lookupKey_foldl_upsert {β : Type} (keyOf : JobWithRepo → String) (d : β)
    (bump : JobWithRepo → β → β) (k : String) (l : List JobWithRepo) :
    ∀ A : List (String × β),
      lookupKey k (List.foldl (fun acc j => upsert (keyOf j) d (bump j) acc) A l)
        = List.foldl (fun ov j => some (bump j (ov.getD d))) (lookupKey k A)
            (l.filter (fun j => keyOf j == k)) := by
  induction l with
  | nil => intro A; rfl
  | cons j js ih =>
    intro A
    by_cases h : keyOf j = k
    · simp [List.foldl_cons, List.filter_cons, h, ih, lookupKey_upsert]
    · simp [List.foldl_cons, List.filter_cons, h, ih, lookupKey_upsert]

theorem upsert_keys {β : Type} (key : String) (d : β) (f : β → β)
    (A : List (String × β)) :
    (upsert key d f A).map Prod.fst
      = if key ∈ A.map Prod.fst then A.map Prod.fst else A.map Prod.fst ++ [key] := by
  induction A with
  | nil => simp [upsert]
  | cons hd tl ih =>
    obtain ⟨k0, v⟩ := hd
    by_cases h0 : k0 = key
    · subst h0; simp [upsert]
    · simp only [upsert, h0, if_false, List.map_cons, ih]
      by_cases hm : key ∈ tl.map Prod.fst <;>
        simp [hm, List.mem_cons, Ne.symm h0, h0]

theorem upsert_keys_nodup {β : Type} (key : String) (d : β) (f : β → β)
    (A : List (String × β)) (h : (A.map Prod.fst).Nodup) :
    ((upsert key d f A).map Prod.fst).Nodup := by
  rw [upsert_keys]
  by_cases hm : key ∈ A.map Prod.fst
  · simpa [hm] using h
  · simp [hm, List.nodup_append, h]

theorem foldl_upsert_keys_nodup {β : Type} (keyOf : JobWithRepo → String) (d : β)
    (bump : JobWithRepo → β → β) (l : List JobWithRepo) :
    ∀ A : List (String × β), (A.map Prod.fst).Nodup →
      ((List.foldl (fun acc j => upsert (keyOf j) d (bump j) acc) A l).map Prod.fst).Nodup := by
  induction l with
  | nil => intro A h; exact h
  | cons j js ih => intro A h; exact ih _ (upsert_keys_nodup _ _ _ _ h)

theorem lookupKey_eq_none {β : Type} (k : String) (A : List (String × β))
    (h : k ∉ A.map Prod.fst) : lookupKey k A = none := by
  induction A with
  | nil => rfl
  | cons hd tl ih =>
    obtain ⟨k0, v⟩ := hd
    rw [List.map_cons] at h
    simp only [List.mem_cons, not_or] at h
    simp [lookupKey, Ne.symm h.1, ih h.2]

theorem lookupKey_setRunCount (key : String) (n : Nat)
    (A : List (String × WorkflowGroup)) (k : String) :
    lookupKey k (setRunCount key n A)
      = if key = k then (lookupKey k A).map (fun g => { g with runCount := n })
        else lookupKey k A := by
  induction A with
  | nil => by_cases h : key = k <;> simp [setRunCount, lookupKey, h]
  | cons hd tl ih =>
    obtain ⟨k0, v⟩ := hd
    by_cases h0 : k0 = key
    · subst h0
      by_cases hk : k0 = k <;> simp [setRunCount, lookupKey, hk]
    · by_cases hk : k0 = k
      · have hne : ¬ key = k := fun h => h0 (hk.trans h.symm)
        have hne2 : ¬ k = key := fun h => h0 (hk.trans h)
        simp [setRunCount, lookupKey, h0, hk, hne, hne2]
      · simp [setRunCount, lookupKey, h0, hk, ih]

theorem lookupKey_applyRunCounts (R : List (String × Finset Int)) :
    ∀ (wf : List (String × WorkflowGroup)) (k : String), (R.map Prod.fst).Nodup →
      lookupKey k (applyRunCounts wf R)
        = match lookupKey k R with
          | none => lookupKey k wf
          | some runs => (lookupKey k wf).map (fun g => { g with runCount := runs.card }) := by
  induction R with
  | nil => intro wf k _; rfl
  | cons hd rest ih =>
    intro wf k h
    obtain ⟨k0, runs0⟩ := hd
    rw [List.map_cons] at h
    have hnd := List.nodup_cons.mp h
    by_cases hk : k0 = k
    · subst hk
      have hrest : lookupKey k0 rest = none := lookupKey_eq_none _ _ hnd.1
      simp [applyRunCounts, ih _ _ hnd.2, hrest, lookupKey, lookupKey_setRunCount]
    · simp [applyRunCounts, ih _ _ hnd.2, lookupKey, hk, lookupKey_setRunCount]

theorem sum_map_upsert {β : Type} (g : β → Nat) (key : String) (d : β) (f : β → β)
    (t : Nat) (hf : ∀ v, g (f v) = g v + t) (hd : g d = 0) (A : List (String × β)) :
    ((upsert key d f A).map (fun e => g e.2)).sum
      = (A.map (fun e => g e.2)).sum + t := by
  induction A with
  | nil => simp [upsert, hf, hd]
  | cons hd0 tl ih =>
    obtain ⟨k0, v⟩ := hd0
    by_cases h0 : k0 = key <;> simp [upsert, h0, hf, ih] <;> omega

/-! ## Small unfolding facts about processJob -/

theorem processJob_os (p : String → Int) (m : List LabelMapping) (j : JobWithRepo) :
    (processJob p j m).os = detectOS j.labels m := rfl

theorem processJob_multiplier (p : String → Int) (m : List LabelMapping) (j : JobWithRepo) :
    (processJob p j m).multiplier = MULTIPLIERS (detectOS j.labels m) := rfl

theorem processJob_durationMinutes (p : String → Int) (m : List LabelMapping) (j : JobWithRepo) :
    (processJob p j m).durationMinutes
      = calculateDurationMinutes p j.started_at (j.completed_at.getD "") := rfl

theorem processJob_billableMinutes (p : String → Int) (m : List LabelMapping) (j : JobWithRepo) :
    (processJob p j m).billableMinutes
      = (processJob p j m).durationMinutes * MULTIPLIERS (detectOS j.labels m) := rfl

/-! ## Projections of the main aggregation fold -/

theorem agg_fold_jobCount (p : String → Int) (m : List LabelMapping) (l : List JobWithRepo) :
    ∀ a : AggAcc, (List.foldl (aggBody p m) a l).jobCount = a.jobCount + l.length := by
  induction l with
  | nil => intro a; simp
  | cons j js ih =>
    intro a
    rw [List.foldl_cons, ih]
    simp [aggBody]
    omega

theorem agg_fold_totalMinutes (p : String → Int) (m : List LabelMapping) (l : List JobWithRepo) :
    ∀ a : AggAcc,
      (List.foldl (aggBody p m) a l).totalMinutes
        = a.totalMinutes + (l.map (fun j => (processJob p j m).durationMinutes)).sum := by
  induction l with
  | nil => intro a; simp
  | cons j js ih =>
    intro a
    rw [List.foldl_cons, ih]
    simp [aggBody]
    omega

theorem agg_fold_totalBillable (p : String → Int) (m : List LabelMapping) (l : List JobWithRepo) :
    ∀ a : AggAcc,
      (List.foldl (aggBody p m) a l).totalBillableMinutes
        = a.totalBillableMinutes + (l.map (fun j => (processJob p j m).billableMinutes)).sum := by
  induction l with
  | nil => intro a; simp
  | cons j js ih =>
    intro a
    rw [List.foldl_cons, ih]
    simp [aggBody]
    omega

theorem agg_fold_jobs (p : String → Int) (m : List LabelMapping) (l : List JobWithRepo) :
    ∀ a : AggAcc,
      (List.foldl (aggBody p m) a l).jobs = a.jobs ++ l.map (fun j => processJob p j m) := by
  induction l with
  | nil => intro a; simp
  | cons j js ih =>
    intro a
    rw [List.foldl_cons, ih]
    simp [aggBody]

theorem agg_fold_seen (p : String → Int) (m : List LabelMapping) (l : List JobWithRepo) :
    ∀ a : AggAcc,
      (List.foldl (aggBody p m) a l).seenRunIds
        = a.seenRunIds ∪ (l.map (fun j => j.run_id)).toFinset := by
  induction l with
  | nil => intro a; simp
  | cons j js ih =>
    intro a
    rw [List.foldl_cons, ih]
    simp [aggBody, Finset.insert_union, Finset.union_insert]

theorem agg_fold_byWorkflow (p : String → Int) (m : List LabelMapping) (l : List JobWithRepo) :
    ∀ a : AggAcc,
      (List.foldl (aggBody p m) a l).byWorkflow
        = List.foldl
            (fun acc j => upsert (wfKeyOf j) wfZero (wfBump (processJob p j m)) acc)
            a.byWorkflow l := by
  induction l with
  | nil => intro a; rfl
  | cons j js ih =>
    intro a
    rw [List.foldl_cons, List.foldl_cons, ih]
    rfl

theorem agg_fold_byRepo (p : String → Int) (m : List LabelMapping) (l : List JobWithRepo) :
    ∀ a : AggAcc,
      (List.foldl (aggBody p m) a l).byRepo
        = List.foldl
            (fun acc j =>
              upsert j.repo_full_name repoZero (repoBump (processJob p j m) j) acc)
            a.byRepo l := by
  induction l with
  | nil => intro a; rfl
  | cons j js ih =>
    intro a
    rw [List.foldl_cons, List.foldl_cons, ih]
    rfl

theorem agg_fold_byDate (p : String → Int) (m : List LabelMapping) (l : List JobWithRepo) :
    ∀ a : AggAcc,
      (List.foldl (aggBody p m) a l).byDate
        = List.foldl
            (fun acc j => upsert (dateKeyOf j) dateZero (dateBump (processJob p j m)) acc)
            a.byDate l := by
  induction l with
  | nil => intro a; rfl
  | cons j js ih =>
    intro a
    rw [List.foldl_cons, List.foldl_cons, ih]
    rfl

theorem agg_fold_byOS (p : String → Int) (m : List LabelMapping) (l : List JobWithRepo) :
    ∀ (a : AggAcc) (os : OSType),
      (List.foldl (aggBody p m) a l).byOS os
        = { minutes := (a.byOS os).minutes
              + ((l.filter (fun j => detectOS j.labels m == os)).map
                  (fun j => (processJob p j m).durationMinutes)).sum
            billableMinutes := (a.byOS os).billableMinutes
              + ((l.filter (fun j => detectOS j.labels m == os)).map
                  (fun j => (processJob p j m).billableMinutes)).sum
            jobCount := (a.byOS os).jobCount
              + (l.filter (fun j => detectOS j.labels m == os)).length } := by
  induction l with
  | nil => intro a os; simp
  | cons j js ih =>
    intro a os
    rw [List.foldl_cons, ih]
    by_cases hos : detectOS j.labels m = os
    · have hbyOS : (aggBody p m a j).byOS os = osBump (processJob p j m) (a.byOS os) := by
        simp [aggBody, processJob_os, hos]
      rw [hbyOS]
      have hb : (detectOS j.labels m == os) = true := beq_iff_eq.mpr hos
      simp only [List.filter_cons, hb, if_pos, List.map_cons, List.sum_cons,
        List.length_cons, osBump, OSGroup.mk.injEq]
      refine ⟨by omega, by omega, by omega⟩
    · have hne : ¬ os = detectOS j.labels m := fun h => hos h.symm
      have hbyOS : (aggBody p m a j).byOS os = a.byOS os := by
        simp [aggBody, processJob_os, hne]
      rw [hbyOS]
      have hb : (detectOS j.labels m == os) = false := by
        simp [hos]
      simp only [List.filter_cons, hb, Bool.false_eq_true, if_neg, not_false_eq_true]

/-! ## Value characterisations of the per-key folds -/

theorem wf_fold_value (p : String → Int) (m : List LabelMapping) (l : List JobWithRepo) :
    ∀ g : WorkflowGroup,
      List.foldl (fun w j => wfBump (processJob p j m) w) g l
        = { minutes := g.minutes + (l.map (fun j => (processJob p j m).durationMinutes)).sum
            billableMinutes :=
              g.billableMinutes + (l.map (fun j => (processJob p j m).billableMinutes)).sum
            jobCount := g.jobCount + l.length
            runCount := g.runCount } := by
  induction l with
  | nil => intro g; simp
  | cons j js ih =>
    intro g
    rw [List.foldl_cons, ih]
    simp only [wfBump, List.map_cons, List.sum_cons, List.length_cons,
      WorkflowGroup.mk.injEq, and_true, true_and]
    omega

theorem repo_fold_value (p : String → Int) (m : List LabelMapping) (l : List JobWithRepo) :
    ∀ g : RepoGroup,
      List.foldl (fun w j => repoBump (processJob p j m) j w) g l
        = { minutes := g.minutes + (l.map (fun j => (processJob p j m).durationMinutes)).sum
            billableMinutes :=
              g.billableMinutes + (l.map (fun j => (processJob p j m).billableMinutes)).sum
            jobCount := g.jobCount + l.length
            workflows :=
              g.workflows ∪ (l.map (fun j => orUnknown j.workflow_name)).toFinset } := by
  induction l with
  | nil => intro g; simp
  | cons j js ih =>
    intro g
    rw [List.foldl_cons, ih]
    simp only [repoBump, List.map_cons, List.sum_cons, List.length_cons,
      List.toFinset_cons, RepoGroup.mk.injEq, Finset.insert_union,
      Finset.union_insert, and_true, true_and]
    omega

theorem date_fold_value (p : String → Int) (m : List LabelMapping) (l : List JobWithRepo) :
    ∀ g : DateGroup,
      List.foldl (fun w j => dateBump (processJob p j m) w) g l
        = { minutes := g.minutes + (l.map (fun j => (processJob p j m).durationMinutes)).sum
            billableMinutes :=
              g.billableMinutes + (l.map (fun j => (processJob p j m).billableMinutes)).sum
            jobCount := g.jobCount + l.length } := by
  induction l with
  | nil => intro g; simp
  | cons j js ih =>
    intro g
    rw [List.foldl_cons, ih]
    simp only [dateBump, List.map_cons, List.sum_cons, List.length_cons,
      DateGroup.mk.injEq, and_true, true_and]
    omega

theorem runs_fold_value (l : List JobWithRepo) :
    ∀ s : Finset Int,
      List.foldl (fun acc j => insert j.run_id acc) s l
        = s ∪ (l.map (fun j => j.run_id)).toFinset := by
  induction l with
  | nil => intro s; simp
  | cons j js ih =>
    intro s
    rw [List.foldl_cons, ih]
    simp [Finset.insert_union, Finset.union_insert]

/-! ## Count sums over the string-keyed rollups -/

theorem agg_fold_byDate_count (p : String → Int) (m : List LabelMapping)
    (l : List JobWithRepo) :
    ∀ a : AggAcc,
      ((List.foldl (aggBody p m) a l).byDate.map (fun e => e.2.jobCount)).sum
        = (a.byDate.map (fun e => e.2.jobCount)).sum + l.length := by
  induction l with
  | nil => intro a; simp
  | cons j js ih =>
    intro a
    rw [List.foldl_cons, ih]
    have h1 : ((aggBody p m a j).byDate.map (fun e => e.2.jobCount)).sum
        = (a.byDate.map (fun e => e.2.jobCount)).sum + 1 := by
      have h2 := sum_map_upsert (fun g : DateGroup => g.jobCount) (dateKeyOf j) dateZero
        (dateBump (processJob p j m)) 1 (fun v => rfl) rfl a.byDate
      simpa [aggBody] using h2
    rw [h1]
    simp
    omega

theorem agg_fold_byRepo_count (p : String → Int) (m : List LabelMapping)
    (l : List JobWithRepo) :
    ∀ a : AggAcc,
      ((List.foldl (aggBody p m) a l).byRepo.map (fun e => e.2.jobCount)).sum
        = (a.byRepo.map (fun e => e.2.jobCount)).sum + l.length := by
  induction l with
  | nil => intro a; simp
  | cons j js ih =>
    intro a
    rw [List.foldl_cons, ih]
    have h1 : ((aggBody p m a j).byRepo.map (fun e => e.2.jobCount)).sum
        = (a.byRepo.map (fun e => e.2.jobCount)).sum + 1 := by
      have h2 := sum_map_upsert (fun g : RepoGroup => g.jobCount) j.repo_full_name repoZero
        (repoBump (processJob p j m) j) 1 (fun v => rfl) rfl a.byRepo
      simpa [aggBody] using h2
    rw [h1]
    simp
    omega

theorem agg_fold_byOS_count (p : String → Int) (m : List LabelMapping)
    (l : List JobWithRepo) :
    ∀ a : AggAcc,
      ((List.foldl (aggBody p m) a l).byOS OSType.linux).jobCount
        + ((List.foldl (aggBody p m) a l).byOS OSType.windows).jobCount
        + ((List.foldl (aggBody p m) a l).byOS OSType.macos).jobCount
        + ((List.foldl (aggBody p m) a l).byOS OSType.unknown).jobCount
      = (a.byOS OSType.linux).jobCount + (a.byOS OSType.windows).jobCount
        + (a.byOS OSType.macos).jobCount + (a.byOS OSType.unknown).jobCount
        + l.length := by
  induction l with
  | nil => intro a; simp
  | cons j js ih =>
    intro a
    rw [List.foldl_cons, ih]
    cases hos : detectOS j.labels m <;>
      simp [aggBody, processJob_os, hos, osBump] <;> omega

/-! ## Characterisation of aggregateBilling -/

theorem agg_main_fold (p : String → Int) (m : List LabelMapping) (jobs : List JobWithRepo) :
    jobs.foldl (aggStep p m) initAcc = List.foldl (aggBody p m) initAcc (completedOnly jobs) :=
  foldl_guard (aggBody p m) jobs initAcc

theorem runs_main_fold (jobs : List JobWithRepo) :
    jobs.foldl runsStep []
      = List.foldl (fun acc j => upsert (wfKeyOf j) ∅ (fun s => insert j.run_id s) acc)
          [] (completedOnly jobs) :=
  foldl_guard (fun acc j => upsert (wfKeyOf j) ∅ (fun s => insert j.run_id s) acc) jobs []

theorem aB_jobCount (p : String → Int) (m : List LabelMapping) (jobs : List JobWithRepo) :
    (aggregateBilling p jobs m).jobCount = (completedOnly jobs).length := by
  show (jobs.foldl (aggStep p m) initAcc).jobCount = _
  rw [agg_main_fold, agg_fold_jobCount]
  simp [initAcc]

theorem aB_totalMinutes (p : String → Int) (m : List LabelMapping) (jobs : List JobWithRepo) :
    (aggregateBilling p jobs m).totalMinutes
      = ((completedOnly jobs).map (fun j => (processJob p j m).durationMinutes)).sum := by
  show (jobs.foldl (aggStep p m) initAcc).totalMinutes = _
  rw [agg_main_fold, agg_fold_totalMinutes]
  simp [initAcc]

theorem aB_totalBillable (p : String → Int) (m : List LabelMapping) (jobs : List JobWithRepo) :
    (aggregateBilling p jobs m).totalBillableMinutes
      = ((completedOnly jobs).map (fun j => (processJob p j m).billableMinutes)).sum := by
  show (jobs.foldl (aggStep p m) initAcc).totalBillableMinutes = _
  rw [agg_main_fold, agg_fold_totalBillable]
  simp [initAcc]

theorem aB_jobs (p : String → Int) (m : List LabelMapping) (jobs : List JobWithRepo) :
    (aggregateBilling p jobs m).jobs
      = (completedOnly jobs).map (fun j => processJob p j m) := by
  show (jobs.foldl (aggStep p m) initAcc).jobs = _
  rw [agg_main_fold, agg_fold_jobs]
  simp [initAcc]

theorem aB_runCount (p : String → Int) (m : List LabelMapping) (jobs : List JobWithRepo) :
    (aggregateBilling p jobs m).runCount
      = (((completedOnly jobs).map (fun j => j.run_id)).toFinset).card := by
  show (jobs.foldl (aggStep p m) initAcc).seenRunIds.card = _
  rw [agg_main_fold, agg_fold_seen]
  simp [initAcc]

theorem aB_byOS (p : String → Int) (m : List LabelMapping) (jobs : List JobWithRepo)
    (os : OSType) :
    (aggregateBilling p jobs m).byOS os
      = { minutes :=
            (((completedOnly jobs).filter (fun j => detectOS j.labels m == os)).map
              (fun j => (processJob p j m).durationMinutes)).sum
          billableMinutes :=
            (((completedOnly jobs).filter (fun j => detectOS j.labels m == os)).map
              (fun j => (processJob p j m).billableMinutes)).sum
          jobCount :=
            ((completedOnly jobs).filter (fun j => detectOS j.labels m == os)).length } := by
  show (jobs.foldl (aggStep p m) initAcc).byOS os = _
  rw [agg_main_fold, agg_fold_byOS]
  simp [initAcc]

theorem aB_byDate_lookup (p : String → Int) (m : List LabelMapping)
    (jobs : List JobWithRepo) (k : String) :
    lookupKey k (aggregateBilling p jobs m).byDate
      = (if ((completedOnly jobs).filter (fun j => dateKeyOf j == k)) = [] then none
         else some
           { minutes :=
               (((completedOnly jobs).filter (fun j => dateKeyOf j == k)).map
                 (fun j => (processJob p j m).durationMinutes)).sum
             billableMinutes :=
               (((completedOnly jobs).filter (fun j => dateKeyOf j == k)).map
                 (fun j => (processJob p j m).billableMinutes)).sum
             jobCount :=
               ((completedOnly jobs).filter (fun j => dateKeyOf j == k)).length }) := by
  show lookupKey k (jobs.foldl (aggStep p m) initAcc).byDate = _
  rw [agg_main_fold, agg_fold_byDate, lookupKey_foldl_upsert]
  have hnone : lookupKey k initAcc.byDate = (none : Option DateGroup) := rfl
  rw [hnone, foldl_opt_none]
  by_cases hfil : ((completedOnly jobs).filter (fun j => dateKeyOf j == k)) = []
  · simp [hfil]
  · simp only [hfil, if_neg, not_false_eq_true]
    rw [date_fold_value]
    simp [dateZero]

theorem aB_byRepo_lookup (p : String → Int) (m : List LabelMapping)
    (jobs : List JobWithRepo) (k : String) :
    lookupKey k (aggregateBilling p jobs m).byRepo
      = (if ((completedOnly jobs).filter (fun j => j.repo_full_name == k)) = [] then none
         else some
           { minutes :=
               (((completedOnly jobs).filter (fun j => j.repo_full_name == k)).map
                 (fun j => (processJob p j m).durationMinutes)).sum
             billableMinutes :=
               (((completedOnly jobs).filter (fun j => j.repo_full_name == k)).map
                 (fun j => (processJob p j m).billableMinutes)).sum
             jobCount :=
               ((completedOnly jobs).filter (fun j => j.repo_full_name == k)).length
             workflows :=
               (((completedOnly jobs).filter (fun j => j.repo_full_name == k)).map
                 (fun j => orUnknown j.workflow_name)).toFinset }) := by
  show lookupKey k (jobs.foldl (aggStep p m) initAcc).byRepo = _
  rw [agg_main_fold, agg_fold_byRepo, lookupKey_foldl_upsert]
  have hnone : lookupKey k initAcc.byRepo = (none : Option RepoGroup) := rfl
  rw [hnone, foldl_opt_none]
  by_cases hfil : ((completedOnly jobs).filter (fun j => j.repo_full_name == k)) = []
  · simp [hfil]
  · simp only [hfil, if_neg, not_false_eq_true]
    rw [repo_fold_value]
    simp [repoZero]

theorem aB_byWorkflow_lookup (p : String → Int) (m : List LabelMapping)
    (jobs : List JobWithRepo) (k : String) :
    lookupKey k (aggregateBilling p jobs m).byWorkflow
      = (if ((completedOnly jobs).filter (fun j => wfKeyOf j == k)) = [] then none
         else some
           { minutes :=
               (((completedOnly jobs).filter (fun j => wfKeyOf j == k)).map
                 (fun j => (processJob p j m).durationMinutes)).sum
             billableMinutes :=
               (((completedOnly jobs).filter (fun j => wfKeyOf j == k)).map
                 (fun j => (processJob p j m).billableMinutes)).sum
             jobCount :=
               ((completedOnly jobs).filter (fun j => wfKeyOf j == k)).length
             runCount :=
               ((((completedOnly jobs).filter (fun j => wfKeyOf j == k)).map
                 (fun j => j.run_id)).toFinset).card }) := by
  have hwf : (aggregateBilling p jobs m).byWorkflow
      = applyRunCounts ((jobs.foldl (aggStep p m) initAcc).byWorkflow)
          (jobs.foldl runsStep []) := rfl
  rw [hwf, agg_main_fold, runs_main_fold, agg_fold_byWorkflow]
  have hnd : ((List.foldl
      (fun acc j => upsert (wfKeyOf j) ∅ (fun s => insert j.run_id s) acc)
      [] (completedOnly jobs)).map Prod.fst).Nodup :=
    foldl_upsert_keys_nodup wfKeyOf (∅ : Finset Int)
      (fun j (s : Finset Int) => insert j.run_id s)
      (completedOnly jobs) [] (by simp)
  rw [lookupKey_applyRunCounts _ _ _ hnd]
  have hR : lookupKey k (List.foldl
      (fun acc j => upsert (wfKeyOf j) ∅ (fun s => insert j.run_id s) acc)
      [] (completedOnly jobs))
      = (if ((completedOnly jobs).filter (fun j => wfKeyOf j == k)) = [] then none
         else some ((((completedOnly jobs).filter (fun j => wfKeyOf j == k)).map
             (fun j => j.run_id)).toFinset)) := by
    rw [lookupKey_foldl_upsert]
    have hnone : lookupKey k ([] : List (String × Finset Int)) = none := rfl
    rw [hnone, foldl_opt_none]
    by_cases hfil : ((completedOnly jobs).filter (fun j => wfKeyOf j == k)) = []
    · simp [hfil]
    · simp only [hfil, if_neg, not_false_eq_true]
      rw [runs_fold_value]
      simp
  have hW : lookupKey k (List.foldl
      (fun acc j => upsert (wfKeyOf j) wfZero (wfBump (processJob p j m)) acc)
      initAcc.byWorkflow (completedOnly jobs))
      = (if ((completedOnly jobs).filter (fun j => wfKeyOf j == k)) = [] then none
         else some
           { minutes :=
               (((completedOnly jobs).filter (fun j => wfKeyOf j == k)).map
                 (fun j => (processJob p j m).durationMinutes)).sum
             billableMinutes :=
               (((completedOnly jobs).filter (fun j => wfKeyOf j == k)).map
                 (fun j => (processJob p j m).billableMinutes)).sum
             jobCount :=
               ((completedOnly jobs).filter (fun j => wfKeyOf j == k)).length
             runCount := 0 }) := by
    rw [lookupKey_foldl_upsert]
    have hnone : lookupKey k initAcc.byWorkflow = (none : Option WorkflowGroup) := rfl
    rw [hnone, foldl_opt_none]
    by_cases hfil : ((completedOnly jobs).filter (fun j => wfKeyOf j == k)) = []
    · simp [hfil]
    · simp only [hfil, if_neg, not_false_eq_true]
      rw [wf_fold_value]
      simp [wfZero]
  rw [hR, hW]
  by_cases hfil : ((completedOnly jobs).filter (fun j => wfKeyOf j == k)) = []
  · simp [hfil]
  · simp [hfil]

/-! ## Supporting lemmas for the claims -/

theorem firstMappingMatch_eq_findSome (lowerLabels : List String)
    (ms : List LabelMapping) :
    firstMappingMatch lowerLabels ms
      = ms.findSome? (fun m =>
          if lowerLabels.any (fun label => matchesPattern label m.pattern) then some m.os
          else none) := by
  induction ms with
  | nil => rfl
  | cons m rest ih =>
    simp only [firstMappingMatch, List.findSome?_cons]
    by_cases h : (lowerLabels.any fun label => matchesPattern label m.pattern) = true
    · rw [if_pos h, if_pos h]
    · rw [if_neg h, if_neg h]
      exact ih

theorem firstDefaultMatch_eq_findSome (lowerLabels : List String)
    (ms : List LabelMapping) :
    firstDefaultMatch lowerLabels ms
      = ms.findSome? (fun m =>
          if lowerLabels.any (fun label => containsSub m.pattern label) then some m.os
          else none) := by
  induction ms with
  | nil => rfl
  | cons m rest ih =>
    simp only [firstDefaultMatch, List.findSome?_cons]
    by_cases h : (lowerLabels.any fun label => containsSub m.pattern label) = true
    · rw [if_pos h, if_pos h]
    · rw [if_neg h, if_neg h]
      exact ih

theorem char_toNat_ofNatAux (n : Nat) (h : n.isValidChar) :
    (Char.ofNatAux n h).toNat = n := rfl

/-- ASCII case folding never produces a question mark from another
character. -/
theorem toLower_eq_question (c : Char) (h : Char.toLower c = '?') : c = '?' := by
  unfold Char.toLower at h
  by_cases hr : c.toNat ≥ 65 ∧ c.toNat ≤ 90
  · rw [if_pos hr] at h
    exfalso
    have hv : (c.toNat + 32).isValidChar := by
      left
      omega
    rw [Char.ofNat, dif_pos hv] at h
    have h2 := congrArg Char.toNat h
    rw [char_toNat_ofNatAux] at h2
    have h63 : Char.toNat '?' = 63 := rfl
    omega
  · rw [if_neg hr] at h
    exact h

theorem lowerStr_noQuestion (s : String) (h : noQuestion s = true) :
    ∀ c ∈ (lowerStr s).data, c ≠ '?' := by
  intro c hc
  simp only [lowerStr] at hc
  rcases List.mem_map.mp hc with ⟨c0, hc0, rfl⟩
  intro heq
  have hc0q := toLower_eq_question c0 heq
  rw [noQuestion, List.all_eq_true] at h
  have h2 := h c0 hc0
  simp [hc0q] at h2

theorem parseGlob_noQuestion (p : List Char) (h : ∀ c ∈ p, c ≠ '?') :
    ∀ acc, parseGlobAux acc p = acc.reverse ++ p.map toElem := by
  induction p with
  | nil => intro acc; simp [parseGlobAux]
  | cons c rest ih =>
    intro acc
    have hc : c ≠ '?' := h c (by simp)
    have hrest : ∀ c2 ∈ rest, c2 ≠ '?' := fun c2 hc2 => h c2 (by simp [hc2])
    by_cases hstar : c = '*'
    · simp [parseGlobAux, hstar, ih hrest, toElem]
    · simp [parseGlobAux, hstar, hc, ih hrest, toElem]

theorem elemsWeight_map_toElem (p : List Char) :
    elemsWeight (p.map toElem) = p.length := by
  induction p with
  | nil => rfl
  | cons c rest ih =>
    have h1 : elemWeight (toElem c) = 1 := by
      by_cases h : c = '*' <;> simp [toElem, h, elemWeight]
    simp only [List.map_cons, elemsWeight, List.sum_cons, List.length_cons] at ih ⊢
    omega

/-- On question-mark-free patterns the compiled-regex matcher is exactly
the anchored glob matcher, step for step. -/
theorem elemsMatch_eq_glob (fuel : Nat) :
    ∀ (p l : List Char), (∀ c ∈ p, c ≠ '?') →
      elemsMatchFuel fuel (p.map toElem) l = globMatchFuel fuel p l := by
  induction fuel with
  | zero => intro p l _; rfl
  | succ fuel ih =>
    intro p l h
    cases p with
    | nil => cases l <;> rfl
    | cons c ps =>
      have hps : ∀ c2 ∈ ps, c2 ≠ '?' := fun c2 hc2 => h c2 (by simp [hc2])
      by_cases hstar : c = '*'
      · subst hstar
        cases l with
        | nil =>
          simp only [List.map_cons, toElem, reduceIte, elemsMatchFuel, globMatchFuel]
          exact ih ps [] hps
        | cons x xs =>
          have h1 := ih ps (x :: xs) hps
          have h2 := ih ('*' :: ps) xs h
          simp only [List.map_cons, toElem, reduceIte] at h1 h2 ⊢
          simp only [elemsMatchFuel, globMatchFuel, reduceIte, h1, h2]
      · cases l with
        | nil =>
          simp only [List.map_cons, toElem, if_neg hstar, elemsMatchFuel, globMatchFuel]
        | cons x xs =>
          have h1 := ih ps xs hps
          simp only [List.map_cons, toElem, if_neg hstar, elemsMatchFuel, globMatchFuel]
          simp [hstar, h1]

theorem findSome_congr {α β : Type} (f g : α → Option β) (l : List α)
    (h : ∀ a ∈ l, f a = g a) : l.findSome? f = l.findSome? g := by
  induction l with
  | nil => rfl
  | cons a as ih =>
    rw [List.findSome?_cons, List.findSome?_cons, h a (by simp)]
    cases hg : g a with
    | none => simp [ih (fun a2 ha2 => h a2 (by simp [ha2]))]
    | some b => rfl

theorem matchesPattern_eq_ref (label pattern : String)
    (h : noQuestion pattern = true) :
    matchesPattern label pattern = matchesPatternRef label pattern := by
  have hq : ∀ c ∈ (lowerStr pattern).data, c ≠ '?' := lowerStr_noQuestion pattern h
  show elemsMatchFuel _ (parseGlobAux [] (lowerStr pattern).data) (lowerStr label).data
      = globMatchFuel _ (lowerStr pattern).data (lowerStr label).data
  rw [parseGlob_noQuestion _ hq []]
  simp only [List.reverse_nil, List.nil_append]
  rw [elemsWeight_map_toElem]
  exact elemsMatch_eq_glob _ _ _ hq

theorem detectOS_eq_ref_of_noQuestion (labels : List String) (ms : List LabelMapping)
    (h : ∀ mp ∈ ms, noQuestion mp.pattern = true) :
    detectOS labels ms = detectOSRef labels ms := by
  have hscrut : ms.findSome? (fun m =>
      if (labels.map (fun l => lowerStr l)).any (fun label => matchesPattern label m.pattern)
      then some m.os else none)
    = ms.findSome? (fun m =>
      if (labels.map (fun l => lowerStr l)).any (fun label => matchesPatternRef label m.pattern)
      then some m.os else none) := by
    apply findSome_congr
    intro mp hmp
    have hrw : ∀ label, matchesPattern label mp.pattern = matchesPatternRef label mp.pattern :=
      fun label => matchesPattern_eq_ref label mp.pattern (h mp hmp)
    simp only [hrw]
  simp only [detectOS, detectOSRef, firstMappingMatch_eq_findSome,
    firstDefaultMatch_eq_findSome]
  rw [hscrut]

theorem estimateCost_expand (b : AggregatedBilling) :
    estimateCost b
      = ((b.byOS OSType.linux).minutes : ℚ) * COST_PER_MINUTE OSType.linux
        + ((b.byOS OSType.windows).minutes : ℚ) * COST_PER_MINUTE OSType.windows
        + ((b.byOS OSType.macos).minutes : ℚ) * COST_PER_MINUTE OSType.macos
        + ((b.byOS OSType.unknown).minutes : ℚ) * COST_PER_MINUTE OSType.unknown := by
  simp [estimateCost, OS_ORDER]

theorem runsLoop_err (keep : WorkflowRun → Bool)
    (pages : List (Except ApiError (List WorkflowRun))) :
    ∀ acc, (∃ e, Except.error e ∈ pages) → runsLoop keep pages acc = [] := by
  induction pages with
  | nil =>
    intro acc h
    rcases h with ⟨e, he⟩
    simp at he
  | cons pg rest ih =>
    intro acc h
    rcases pg with e0 | page
    · rfl
    · rcases h with ⟨e, he⟩
      rcases List.mem_cons.mp he with h1 | h2
      · exact absurd h1 (by simp)
      · exact ih _ ⟨e, h2⟩

theorem jobsLoop_err (pages : List (Except ApiError (List WorkflowJob))) :
    ∀ acc, (∃ e, Except.error e ∈ pages) → jobsLoop pages acc = [] := by
  induction pages with
  | nil =>
    intro acc h
    rcases h with ⟨e, he⟩
    simp at he
  | cons pg rest ih =>
    intro acc h
    rcases pg with e0 | page
    · rfl
    · rcases h with ⟨e, he⟩
      rcases List.mem_cons.mp he with h1 | h2
      · exact absurd h1 (by simp)
      · exact ih _ ⟨e, h2⟩

theorem jobsLoop_completed (pages : List (Except ApiError (List WorkflowJob))) :
    ∀ acc, (∀ j ∈ acc, truthyOpt j.completed_at = true) →
      ∀ j ∈ jobsLoop pages acc, truthyOpt j.completed_at = true := by
  induction pages with
  | nil => intro acc h; exact h
  | cons pg rest ih =>
    intro acc h
    rcases pg with e0 | page
    · intro j hj
      simp [jobsLoop] at hj
    · apply ih
      intro j hj
      rcases List.mem_append.mp hj with h1 | h2
      · exact h j h1
      · exact (List.mem_filter.mp h2).2

theorem listRunJobs_completed (pages : List (Except ApiError (List WorkflowJob))) :
    ∀ j ∈ listRunJobs pages, truthyOpt j.completed_at = true :=
  jobsLoop_completed pages [] (by simp)

theorem agg_fold_os_invariant (p : String → Int) (m : List LabelMapping)
    (l : List JobWithRepo) :
    ∀ a : AggAcc,
      ((∀ os, (a.byOS os).billableMinutes = (a.byOS os).minutes * MULTIPLIERS os)
        ∧ a.totalBillableMinutes
            = (a.byOS OSType.linux).billableMinutes
              + (a.byOS OSType.windows).billableMinutes
              + (a.byOS OSType.macos).billableMinutes
              + (a.byOS OSType.unknown).billableMinutes) →
      ((∀ os, ((List.foldl (aggBody p m) a l).byOS os).billableMinutes
            = ((List.foldl (aggBody p m) a l).byOS os).minutes * MULTIPLIERS os)
        ∧ (List.foldl (aggBody p m) a l).totalBillableMinutes
            = ((List.foldl (aggBody p m) a l).byOS OSType.linux).billableMinutes
              + ((List.foldl (aggBody p m) a l).byOS OSType.windows).billableMinutes
              + ((List.foldl (aggBody p m) a l).byOS OSType.macos).billableMinutes
              + ((List.foldl (aggBody p m) a l).byOS OSType.unknown).billableMinutes) := by
  induction l with
  | nil => intro a h; exact h
  | cons j js ih =>
    intro a h
    rw [List.foldl_cons]
    apply ih
    have hfield : ∀ os, (aggBody p m a j).byOS os
        = if os = (processJob p j m).os then osBump (processJob p j m) (a.byOS os)
          else a.byOS os := fun _ => rfl
    constructor
    · intro os
      rw [hfield os]
      by_cases hos : os = (processJob p j m).os
      · rw [if_pos hos]
        simp only [osBump]
        have hos2 : os = detectOS j.labels m := hos.trans (processJob_os p m j)
        rw [h.1 os, processJob_billableMinutes, hos2]
        ring
      · rw [if_neg hos]
        exact h.1 os
    · have ht : (aggBody p m a j).totalBillableMinutes
          = a.totalBillableMinutes + (processJob p j m).billableMinutes := rfl
      rw [ht, h.2, hfield OSType.linux, hfield OSType.windows, hfield OSType.macos,
        hfield OSType.unknown]
      cases hdet : (processJob p j m).os <;> simp [hdet, osBump] <;> ring

/-! ## Claim theorems -/

/-- C2: for every pair of timestamps, `calculateDurationMinutes` equals
the ceiling of the elapsed milliseconds divided by 60000, and a job
completed exactly one second after it started yields 1 minute (round-up,
never round-to-nearest). -/
theorem c2_duration_round_up (parse : String → Int) (s c : String)
    (h : parse c = parse s + 1000) :
    (∀ s2 c2 : String,
        calculateDurationMinutes parse s2 c2
          = Int.ceil (((parse c2 - parse s2 : Int) : ℚ) / 60000))
    ∧ (∀ s2 c2 : String,
        calculateDurationMinutes parse s2 c2
          = Int.ceil (((parse c2 - parse s2 : Int) : ℚ) / 1000 / 60))
    ∧ calculateDurationMinutes parse s c = 1 := by
  have law : ∀ s2 c2 : String,
      calculateDurationMinutes parse s2 c2
        = Int.ceil (((parse c2 - parse s2 : Int) : ℚ) / 60000) := by
    intro s2 c2
    show -((-(parse c2 - parse s2)) / 60000) = _
    have h1 : (((parse c2 - parse s2 : Int) : ℚ) / 60000)
        = -(((-(parse c2 - parse s2) : ℤ) : ℚ) / ((60000 : ℕ) : ℚ)) := by
      push_cast
      ring
    rw [h1, Int.ceil_neg, Rat.floor_intCast_div_natCast]
    rfl
  have law2 : ∀ s2 c2 : String,
      calculateDurationMinutes parse s2 c2
        = Int.ceil (((parse c2 - parse s2 : Int) : ℚ) / 1000 / 60) := by
    intro s2 c2
    rw [law s2 c2, div_div]
    norm_num
  refine ⟨law, law2, ?_⟩
  rw [law s c, h]
  have h1000 : ((parse s + 1000 - parse s : Int) : ℚ) = 1000 := by
    push_cast
    ring
  rw [h1000]
  rw [Int.ceil_eq_iff]
  constructor <;> norm_num

theorem c2_duration_round_up_witness :
    parseFix "E" = parseFix "S" + 1000
    ∧ calculateDurationMinutes parseFix "S" "E" = 1 :=
  ⟨by decide, (c2_duration_round_up parseFix "S" "E" (by decide)).2.2⟩

/-- C3 counterexample: the source's escape list omits the question mark,
which therefore acts as the regex optional quantifier, not a literal:
pattern runner-? matches the label runner in the code, while the pure
anchored-glob semantics the claim asserts (embodied by detectOSRef)
classifies the same input as unknown. -/
theorem c3_counterexample :
    detectOS ["runner"] [{ pattern := "runner-?", os := OSType.linux }] = OSType.linux
    ∧ detectOSRef ["runner"] [{ pattern := "runner-?", os := OSType.linux }]
        = OSType.unknown
    ∧ detectOS ["runner"] [{ pattern := "runner-?", os := OSType.linux }]
        ≠ detectOSRef ["runner"] [{ pattern := "runner-?", os := OSType.linux }] :=
  ⟨by decide, by decide, by decide⟩

/-- C3 amended: for custom mappings whose patterns contain no question
mark, `detectOS` behaves exactly as the claim says — each custom mapping
in order against every label with case-insensitive anchored glob
matching, first matching mapping wins, then the built-in substring table
in declared order, else unknown (equality with the spec-side
`detectOSRef`).  The concrete examples hold; additionally, a question
mark in a pattern survives the source's escaping as a regex quantifier,
so labels ["runner"] with mapping runner-?:linux classify as linux. -/
theorem c3_detectOS_amended (labels : List String) (ms : List LabelMapping)
    (h : ∀ mp ∈ ms, noQuestion mp.pattern = true) :
    detectOS labels ms = detectOSRef labels ms
    ∧ detectOS ["self-hosted", "runner-42-prod"]
        [{ pattern := "runner-*", os := OSType.linux }] = OSType.linux
    ∧ detectOS ["self-hosted", "runner-42-prod"] [] = OSType.unknown
    ∧ matchesPattern "runner-42-prod" "runner" = false
    ∧ matchesPattern "RUNNER-42-PROD" "runner-*" = true
    ∧ detectOS ["macos-large", "ubuntu-latest"] [] = OSType.linux
    ∧ detectOS ["runner"] [{ pattern := "runner-?", os := OSType.linux }] = OSType.linux :=
  ⟨detectOS_eq_ref_of_noQuestion labels ms h, by decide, by decide, by decide,
    by decide, by decide, by decide⟩

theorem c3_detectOS_amended_witness :
    (∀ mp ∈ ([{ pattern := "runner-*", os := OSType.linux }] : List LabelMapping),
        noQuestion mp.pattern = true)
    ∧ detectOS ["self-hosted", "runner-42-prod"]
        [{ pattern := "runner-*", os := OSType.linux }]
      = detectOSRef ["self-hosted", "runner-42-prod"]
        [{ pattern := "runner-*", os := OSType.linux }] :=
  ⟨by decide, (c3_detectOS_amended ["self-hosted", "runner-42-prod"]
      [{ pattern := "runner-*", os := OSType.linux }] (by decide)).1⟩

/-- C4: for every AggregatedBilling value, `estimateCost` is the sum
over the four OS categories of raw minutes times the fixed per-minute
rate {linux 0.008, windows 0.016, macos 0.08, unknown 0.008}, and on the
spec's concrete example (100/50/10/0 minutes) it evaluates to 2.40
USD. -/
theorem c4_cost_formula (b : AggregatedBilling)
    (h1 : (b.byOS OSType.linux).minutes = 100)
    (h2 : (b.byOS OSType.windows).minutes = 50)
    (h3 : (b.byOS OSType.macos).minutes = 10)
    (h4 : (b.byOS OSType.unknown).minutes = 0) :
    (∀ b2 : AggregatedBilling,
        estimateCost b2
          = ((b2.byOS OSType.linux).minutes : ℚ) * COST_PER_MINUTE OSType.linux
            + ((b2.byOS OSType.windows).minutes : ℚ) * COST_PER_MINUTE OSType.windows
            + ((b2.byOS OSType.macos).minutes : ℚ) * COST_PER_MINUTE OSType.macos
            + ((b2.byOS OSType.unknown).minutes : ℚ) * COST_PER_MINUTE OSType.unknown)
    ∧ (COST_PER_MINUTE OSType.linux = 0.008 ∧ COST_PER_MINUTE OSType.windows = 0.016
        ∧ COST_PER_MINUTE OSType.macos = 0.08 ∧ COST_PER_MINUTE OSType.unknown = 0.008)
    ∧ estimateCost b = 2.40 := by
  refine ⟨estimateCost_expand, ⟨rfl, rfl, rfl, rfl⟩, ?_⟩
  rw [estimateCost_expand b, h1, h2, h3, h4]
  norm_num [COST_PER_MINUTE]

theorem c4_cost_formula_witness :
    (aggFix.byOS OSType.linux).minutes = 100
    ∧ (aggFix.byOS OSType.windows).minutes = 50
    ∧ (aggFix.byOS OSType.macos).minutes = 10
    ∧ (aggFix.byOS OSType.unknown).minutes = 0
    ∧ estimateCost aggFix = 2.40 :=
  ⟨by decide, by decide, by decide, by decide,
    (c4_cost_formula aggFix (by decide) (by decide) (by decide) (by decide)).2.2⟩

/-- C7: an API error raised while listing a repository's workflow runs or
a run's jobs makes the listing return the empty list instead of
propagating, so an inaccessible entity contributes zero results and does
not abort the batch. -/
theorem c7_errors_swallowed (parse : String → Int) (since untilT : Int)
    (pagesR : List (Except ApiError (List WorkflowRun)))
    (pagesJ : List (Except ApiError (List WorkflowJob)))
    (oracle : WorkflowRun → List (Except ApiError (List WorkflowJob)))
    (run1 : WorkflowRun) (rest : List WorkflowRun)
    (hR : ∃ e, Except.error e ∈ pagesR)
    (hJ : ∃ e, Except.error e ∈ pagesJ)
    (hO : ∃ e, Except.error e ∈ oracle run1) :
    listWorkflowRuns parse since untilT pagesR = []
    ∧ listRunJobs pagesJ = []
    ∧ fetchAllJobs oracle (run1 :: rest) = fetchAllJobs oracle rest := by
  refine ⟨runsLoop_err _ _ _ hR, jobsLoop_err _ _ hJ, ?_⟩
  have hrun1 : listRunJobs (oracle run1) = [] := jobsLoop_err _ _ hO
  simp [fetchAllJobs, hrun1]

theorem c7_errors_swallowed_witness :
    listWorkflowRuns parseFix 0 100 errRunPages = []
    ∧ listRunJobs errJobPages = []
    ∧ fetchAllJobs oracleErr (runFix :: []) = fetchAllJobs oracleErr [] :=
  c7_errors_swallowed parseFix 0 100 errRunPages errJobPages oracleErr runFix []
    ⟨{ status := 404 }, by simp [errRunPages]⟩
    ⟨{ status := 409 }, by simp [errJobPages]⟩
    ⟨{ status := 403 }, by simp [oracleErr]⟩

/-- C8: a set immediately followed by a get with the same ttl returns the
stored data unchanged; a get that finds a version mismatch or an entry
older than the ttl reports absence and deletes the on-disk entry, never
returning stale data. -/
theorem c8_cache_roundtrip {α : Type} (now now2 ttl : Int) (kp : List String) (d : α)
    (store : CacheStore α) (e : CacheEntry α)
    (httl : 0 ≤ ttl) (he : store (getCacheKey kp) = some e)
    (hbad : e.version ≠ CACHE_VERSION ∨ now2 - e.timestamp > ttl) :
    (getCache now kp ttl (setCache now kp d ttl store)).1 = some d
    ∧ (getCache now2 kp ttl store).1 = none
    ∧ (getCache now2 kp ttl store).2 (getCacheKey kp) = none := by
  have hfresh : (getCache now kp ttl (setCache now kp d ttl store)).1 = some d := by
    have hkey : setCache now kp d ttl store (getCacheKey kp)
        = some { version := CACHE_VERSION, timestamp := now, ttlMs := ttl, data := d } := by
      simp [setCache]
    have hno : ¬ (now - now > ttl) := by omega
    have hno2 : ¬ ttl < 0 := by omega
    simp [getCache, hkey, CACHE_VERSION, hno, hno2]
  have hstale : (getCache now2 kp ttl store).1 = none
      ∧ (getCache now2 kp ttl store).2 (getCacheKey kp) = none := by
    rcases hbad with hv | ht
    · constructor <;> simp [getCache, he, hv]
    · by_cases hv : e.version = CACHE_VERSION
      · constructor <;> simp [getCache, he, hv, ht]
      · constructor <;> simp [getCache, he, hv]
  exact ⟨hfresh, hstale.1, hstale.2⟩

theorem c8_cache_roundtrip_witness :
    ((0 : Int) ≤ 100 ∧ storeFix (getCacheKey ["k"]) = some staleEntryFix)
    ∧ (getCache 0 ["k"] 100 (setCache 0 ["k"] (7 : Nat) 100 storeFix)).1 = some 7
    ∧ (getCache 50 ["k"] 100 storeFix).1 = none
    ∧ (getCache 50 ["k"] 100 storeFix).2 (getCacheKey ["k"]) = none := by
  have h := c8_cache_roundtrip 0 50 100 ["k"] (7 : Nat) storeFix staleEntryFix
    (by norm_num) (by rfl) (Or.inl (by decide))
  exact ⟨⟨by norm_num, by rfl⟩, h.1, h.2.1, h.2.2⟩

/-- C6 counterexample: `fetchAllJobs` copies the run's `name` into
`workflow_name` as-is; for a run with no name the denormalised job
carries `none`, not the substituted string "unknown". -/
theorem c6_counterexample :
    runFix.name = none
    ∧ ¬ (∀ j ∈ fetchAllJobs oracleFix [runFix], j.workflow_name = some "unknown") := by
  refine ⟨rfl, ?_⟩
  decide

/-- C6 amended: every job returned by `fetchAllJobs` is denormalised with
its parent run's repository full name and the run's `name` verbatim
(possibly null — the "unknown" substitution happens later, in the billing
aggregation's keying), and only jobs with a non-null `completed_at` are
returned. -/
theorem c6_amended_denormalization
    (oracle : WorkflowRun → List (Except ApiError (List WorkflowJob)))
    (runs : List WorkflowRun) (j : JobWithRepo)
    (hj : j ∈ fetchAllJobs oracle runs) :
    ∃ run ∈ runs, j.repo_full_name = run.repository.full_name
      ∧ j.workflow_name = run.name ∧ j.completed_at.isSome := by
  unfold fetchAllJobs at hj
  rcases List.mem_flatten.mp hj with ⟨sub, hsub, hjsub⟩
  rcases List.mem_map.mp hsub with ⟨run, hrun, rfl⟩
  rcases List.mem_map.mp hjsub with ⟨job, hjob, rfl⟩
  refine ⟨run, hrun, rfl, rfl, ?_⟩
  have hc := listRunJobs_completed (oracle run) job hjob
  cases hco : job.completed_at with
  | none => rw [hco] at hc; simp [truthyOpt] at hc
  | some sv => simp [hco]

theorem c6_amended_denormalization_witness :
    (jobDenormFix ∈ fetchAllJobs oracleFix [runFix])
    ∧ ∃ run ∈ [runFix], jobDenormFix.repo_full_name = run.repository.full_name
        ∧ jobDenormFix.workflow_name = run.name ∧ jobDenormFix.completed_at.isSome :=
  ⟨by decide, c6_amended_denormalization oracleFix [runFix] jobDenormFix (by decide)⟩

/-- C10: `calculateDurationMinutes` has no lower bound: a job completed
at its start instant yields 0, a job whose completion parses before its
start yields a negative duration, and such jobs still enter the totals
and the job count of the aggregation. -/
theorem c10_no_lower_bound (parse : String → Int) (s c : String)
    (h : parse c = parse s) :
    calculateDurationMinutes parse s c = 0
    ∧ calculateDurationMinutes parseFix "S" "N" = -2
    ∧ (aggregateBilling parseFix [jobZero, jobNeg] []).jobCount = 2
    ∧ (aggregateBilling parseFix [jobZero, jobNeg] []).totalMinutes = -2 := by
  refine ⟨?_, by decide, by decide, by decide⟩
  show -((-(parse c - parse s)) / 60000) = 0
  rw [h]
  simp

theorem c10_no_lower_bound_witness :
    parseFix "S" = parseFix "S"
    ∧ calculateDurationMinutes parseFix "S" "S" = 0 :=
  ⟨rfl, (c10_no_lower_bound parseFix "S" "S" rfl).1⟩

/-- C1 counterexample: a job whose `completed_at` is the empty string is
non-null, yet the truthiness guard `if (!job.completed_at) continue`
skips it, so jobCount does not equal the number of jobs with non-null
`completed_at`. -/
theorem c1_counterexample :
    ([jobEmptyC].filter (fun j => j.completed_at.isSome)).length = 1
    ∧ (aggregateBilling parseFix [jobEmptyC] []).jobCount = 0
    ∧ (aggregateBilling parseFix [jobEmptyC] []).jobCount
        ≠ ([jobEmptyC].filter (fun j => j.completed_at.isSome)).length :=
  ⟨by decide, by decide, by decide⟩

/-- C1 amended: `aggregateBilling` counts exactly the jobs with truthy
(non-null and non-empty) `completed_at`: jobCount is the number of such
jobs, jobs failing the guard appear in no rollup and no total, and the
per-group job counts partition the whole — the four byOS buckets, the
byDate entries and the byRepo entries each sum to jobCount. -/
theorem c1_partition (p : String → Int) (m : List LabelMapping) (jobs : List JobWithRepo) :
    (aggregateBilling p jobs m).jobCount
        = (jobs.filter (fun j => truthyOpt j.completed_at)).length
    ∧ ((aggregateBilling p jobs m).byOS OSType.linux).jobCount
        + ((aggregateBilling p jobs m).byOS OSType.windows).jobCount
        + ((aggregateBilling p jobs m).byOS OSType.macos).jobCount
        + ((aggregateBilling p jobs m).byOS OSType.unknown).jobCount
        = (aggregateBilling p jobs m).jobCount
    ∧ ((aggregateBilling p jobs m).byDate.map (fun e => e.2.jobCount)).sum
        = (aggregateBilling p jobs m).jobCount
    ∧ ((aggregateBilling p jobs m).byRepo.map (fun e => e.2.jobCount)).sum
        = (aggregateBilling p jobs m).jobCount
    ∧ (aggregateBilling p jobs m).jobs.length = (aggregateBilling p jobs m).jobCount := by
  have hjc := aB_jobCount p m jobs
  refine ⟨hjc, ?_, ?_, ?_, ?_⟩
  · show ((jobs.foldl (aggStep p m) initAcc).byOS OSType.linux).jobCount
        + ((jobs.foldl (aggStep p m) initAcc).byOS OSType.windows).jobCount
        + ((jobs.foldl (aggStep p m) initAcc).byOS OSType.macos).jobCount
        + ((jobs.foldl (aggStep p m) initAcc).byOS OSType.unknown).jobCount
      = (aggregateBilling p jobs m).jobCount
    rw [agg_main_fold, agg_fold_byOS_count, hjc]
    simp [initAcc, completedOnly]
  · show ((jobs.foldl (aggStep p m) initAcc).byDate.map (fun e => e.2.jobCount)).sum
      = (aggregateBilling p jobs m).jobCount
    rw [agg_main_fold, agg_fold_byDate_count, hjc]
    simp [initAcc, completedOnly]
  · show ((jobs.foldl (aggStep p m) initAcc).byRepo.map (fun e => e.2.jobCount)).sum
      = (aggregateBilling p jobs m).jobCount
    rw [agg_main_fold, agg_fold_byRepo_count, hjc]
    simp [initAcc, completedOnly]
  · rw [aB_jobs, hjc]
    simp [completedOnly]

/-- C9: in every aggregation result, each OS bucket's billable minutes
are its raw minutes times the fixed multiplier of that OS (linux 1,
windows 2, macos 10, unknown 1), and consequently the per-OS-rate cost
formula coincides with `totalBillableMinutes × 0.008`. -/
theorem c9_billable_multiplier (p : String → Int) (m : List LabelMapping)
    (jobs : List JobWithRepo) :
    (∀ os, ((aggregateBilling p jobs m).byOS os).billableMinutes
        = ((aggregateBilling p jobs m).byOS os).minutes * MULTIPLIERS os)
    ∧ estimateCost (aggregateBilling p jobs m)
        = ((aggregateBilling p jobs m).totalBillableMinutes : ℚ) * 0.008 := by
  have hinv := agg_fold_os_invariant p m (completedOnly jobs) initAcc
    (by constructor <;> simp [initAcc])
  have hfold := agg_main_fold p m jobs
  have h1 : ∀ os, ((aggregateBilling p jobs m).byOS os).billableMinutes
      = ((aggregateBilling p jobs m).byOS os).minutes * MULTIPLIERS os := by
    intro os
    show ((jobs.foldl (aggStep p m) initAcc).byOS os).billableMinutes
      = ((jobs.foldl (aggStep p m) initAcc).byOS os).minutes * MULTIPLIERS os
    rw [hfold]
    exact hinv.1 os
  refine ⟨h1, ?_⟩
  have h2 : (aggregateBilling p jobs m).totalBillableMinutes
      = ((aggregateBilling p jobs m).byOS OSType.linux).billableMinutes
        + ((aggregateBilling p jobs m).byOS OSType.windows).billableMinutes
        + ((aggregateBilling p jobs m).byOS OSType.macos).billableMinutes
        + ((aggregateBilling p jobs m).byOS OSType.unknown).billableMinutes := by
    show (jobs.foldl (aggStep p m) initAcc).totalBillableMinutes
      = ((jobs.foldl (aggStep p m) initAcc).byOS OSType.linux).billableMinutes
        + ((jobs.foldl (aggStep p m) initAcc).byOS OSType.windows).billableMinutes
        + ((jobs.foldl (aggStep p m) initAcc).byOS OSType.macos).billableMinutes
        + ((jobs.foldl (aggStep p m) initAcc).byOS OSType.unknown).billableMinutes
    rw [hfold]
    exact hinv.2
  rw [estimateCost_expand, h2, h1 OSType.linux, h1 OSType.windows, h1 OSType.macos,
    h1 OSType.unknown]
  push_cast
  simp only [MULTIPLIERS, COST_PER_MINUTE]
  ring

/-- C5: the billing aggregation is order-independent: permuting the input
job list leaves totalMinutes, totalBillableMinutes, jobCount, runCount,
the byOS record and the contents of the byWorkflow (runCount included),
byRepo (workflow set included) and byDate rollups unchanged. -/
theorem c5_order_independence (p : String → Int) (m : List LabelMapping)
    (l1 l2 : List JobWithRepo) (h : l1.Perm l2) :
    (aggregateBilling p l1 m).totalMinutes = (aggregateBilling p l2 m).totalMinutes
    ∧ (aggregateBilling p l1 m).totalBillableMinutes
        = (aggregateBilling p l2 m).totalBillableMinutes
    ∧ (aggregateBilling p l1 m).jobCount = (aggregateBilling p l2 m).jobCount
    ∧ (aggregateBilling p l1 m).runCount = (aggregateBilling p l2 m).runCount
    ∧ (aggregateBilling p l1 m).byOS = (aggregateBilling p l2 m).byOS
    ∧ (∀ k, lookupKey k (aggregateBilling p l1 m).byWorkflow
          = lookupKey k (aggregateBilling p l2 m).byWorkflow)
    ∧ (∀ k, lookupKey k (aggregateBilling p l1 m).byRepo
          = lookupKey k (aggregateBilling p l2 m).byRepo)
    ∧ (∀ k, lookupKey k (aggregateBilling p l1 m).byDate
          = lookupKey k (aggregateBilling p l2 m).byDate) := by
  have hc : (completedOnly l1).Perm (completedOnly l2) := h.filter _
  refine ⟨?_, ?_, ?_, ?_, ?_, ?_, ?_, ?_⟩
  · rw [aB_totalMinutes, aB_totalMinutes]
    exact (hc.map _).sum_eq
  · rw [aB_totalBillable, aB_totalBillable]
    exact (hc.map _).sum_eq
  · rw [aB_jobCount, aB_jobCount]
    exact hc.length_eq
  · rw [aB_runCount, aB_runCount, List.toFinset_eq_of_perm _ _ (hc.map _)]
  · funext os
    rw [aB_byOS, aB_byOS]
    have hf := hc.filter (fun j => detectOS j.labels m == os)
    simp only [OSGroup.mk.injEq]
    exact ⟨(hf.map _).sum_eq, (hf.map _).sum_eq, hf.length_eq⟩
  · intro k
    rw [aB_byWorkflow_lookup, aB_byWorkflow_lookup]
    have hf := hc.filter (fun j => wfKeyOf j == k)
    by_cases hnil : ((completedOnly l1).filter (fun j => wfKeyOf j == k)) = []
    · have hnil2 : ((completedOnly l2).filter (fun j => wfKeyOf j == k)) = [] := by
        have hlen := hf.length_eq
        rw [hnil] at hlen
        exact List.length_eq_zero.mp hlen.symm
      rw [if_pos hnil, if_pos hnil2]
    · have hnil2 : ¬ ((completedOnly l2).filter (fun j => wfKeyOf j == k)) = [] := by
        intro h2
        apply hnil
        have hlen := hf.length_eq
        rw [h2] at hlen
        exact List.length_eq_zero.mp hlen
      rw [if_neg hnil, if_neg hnil2]
      simp only [Option.some.injEq, WorkflowGroup.mk.injEq]
      exact ⟨(hf.map _).sum_eq, (hf.map _).sum_eq, hf.length_eq,
        by rw [List.toFinset_eq_of_perm _ _ (hf.map _)]⟩
  · intro k
    rw [aB_byRepo_lookup, aB_byRepo_lookup]
    have hf := hc.filter (fun j => j.repo_full_name == k)
    by_cases hnil : ((completedOnly l1).filter (fun j => j.repo_full_name == k)) = []
    · have hnil2 : ((completedOnly l2).filter (fun j => j.repo_full_name == k)) = [] := by
        have hlen := hf.length_eq
        rw [hnil] at hlen
        exact List.length_eq_zero.mp hlen.symm
      rw [if_pos hnil, if_pos hnil2]
    · have hnil2 : ¬ ((completedOnly l2).filter (fun j => j.repo_full_name == k)) = [] := by
        intro h2
        apply hnil
        have hlen := hf.length_eq
        rw [h2] at hlen
        exact List.length_eq_zero.mp hlen
      rw [if_neg hnil, if_neg hnil2]
      simp only [Option.some.injEq, RepoGroup.mk.injEq]
      exact ⟨(hf.map _).sum_eq, (hf.map _).sum_eq, hf.length_eq,
        by rw [List.toFinset_eq_of_perm _ _ (hf.map _)]⟩
  · intro k
    rw [aB_byDate_lookup, aB_byDate_lookup]
    have hf := hc.filter (fun j => dateKeyOf j == k)
    by_cases hnil : ((completedOnly l1).filter (fun j => dateKeyOf j == k)) = []
    · have hnil2 : ((completedOnly l2).filter (fun j => dateKeyOf j == k)) = [] := by
        have hlen := hf.length_eq
        rw [hnil] at hlen
        exact List.length_eq_zero.mp hlen.symm
      rw [if_pos hnil, if_pos hnil2]
    · have hnil2 : ¬ ((completedOnly l2).filter (fun j => dateKeyOf j == k)) = [] := by
        intro h2
        apply hnil
        have hlen := hf.length_eq
        rw [h2] at hlen
        exact List.length_eq_zero.mp hlen
      rw [if_neg hnil, if_neg hnil2]
      simp only [Option.some.injEq, DateGroup.mk.injEq]
      exact ⟨(hf.map _).sum_eq, (hf.map _).sum_eq, hf.length_eq⟩

theorem c5_order_independence_witness :
    (aggregateBilling parseFix [jobA, jobB] []).totalMinutes
      = (aggregateBilling parseFix [jobB, jobA] []).totalMinutes
    ∧ (aggregateBilling parseFix [jobA, jobB] []).runCount
      = (aggregateBilling parseFix [jobB, jobA] []).runCount
    ∧ lookupKey "acme/app/CI" (aggregateBilling parseFix [jobA, jobB] []).byWorkflow
      = lookupKey "acme/app/CI" (aggregateBilling parseFix [jobB, jobA] []).byWorkflow := by
  have h := c5_order_independence parseFix [] [jobA, jobB] [jobB, jobA]
    (List.Perm.swap jobB jobA [])
  exact ⟨h.1, h.2.2.2.1, h.2.2.2.2.2.1 "acme/app/CI"⟩
